import Mathlib

/-!
Shallow embedding of `music21/alpha/theoryAnalysis/theoryResult.py`:
the theory-analysis result/annotation hierarchy (TheoryResult and its
shape-specific subclasses) as pure state-passing functions over record
types.  Python's in-place mutation of note objects becomes functional
update of the record holding them; an uncaught Python exception
(KeyError / IndexError from a failed lookup) becomes `Except.error`.
Python `None`-able arguments become `Option`; tuple/list selector
arguments become `List Int` (Python ints); dictionaries become
association lists iterated in insertion order, as Python does.
-/

namespace TheoryResultSpec

/-- Editorial values stored in a note's `editorial.misc` dictionary.
Python allows arbitrary values; the program only needs membership and
equality tests, so a small closed universe with decidable equality
suffices. -/
inductive EdVal where
  | boolVal (b : Bool)
  | strVal (s : String)
  | natVal (n : Nat)
deriving DecidableEq, Repr

/-- Python dict assignment `d[k] = v` on an association list: replace the
first binding of `k` if present, otherwise append the new binding. -/
def assocSet {α β : Type} [DecidableEq α] : List (α × β) → α → β → List (α × β)
  | [], k, v => [(k, v)]
  | (k', v') :: rest, k, v =>
      if k' = k then (k, v) :: rest else (k', v') :: assocSet rest k v

/-- A note handle as the annotation layer sees it (spec section 6): mutable
`color`, mutable `lyric`, mutable `editorial.misc` mapping, and a read-only
temporal `offset`. -/
structure MNote where
  color : String
  lyric : String
  misc : List (String × EdVal)
  offset : Int
deriving DecidableEq, Repr

/-- `note.color = c` -/
def MNote.setColor (n : MNote) (c : String) : MNote :=
  { n with color := c }

/-- `note.lyric = v` -/
def MNote.setLyric (n : MNote) (v : String) : MNote :=
  { n with lyric := v }

/-- `note.editorial.misc[key] = value` -/
def MNote.markMisc (n : MNote) (k : String) (v : EdVal) : MNote :=
  { n with misc := assocSet n.misc k v }

/-- `miscKey in note.editorial.misc and note.editorial.misc[miscKey] == value` -/
def MNote.hasMisc (n : MNote) (k : String) (v : EdVal) : Bool :=
  match n.misc.lookup k with
  | some v' => v' = v
  | none => false

/-- Base class `TheoryResult`: description text, value, current color. -/
structure TheoryResult where
  text : String
  value : String
  currentColor : String
deriving DecidableEq, Repr

/-- `TheoryResult.color`: the base-class method stores the color name into
`currentColor` and touches nothing else. -/
def TheoryResult.color (r : TheoryResult) (c : String) : TheoryResult :=
  { r with currentColor := c }

/-- A `VoiceLeadingQuartet`-shaped finding: the 2x2 note grid
`[ v1n1 v1n2 / v2n1 v2n2 ]`. -/
structure VLQ where
  v1n1 : MNote
  v1n2 : MNote
  v2n1 : MNote
  v2n2 : MNote
deriving DecidableEq, Repr

/-- `VLQTheoryResult`: base fields plus the wrapped quartet. -/
structure VLQTheoryResult where
  text : String
  value : String
  currentColor : String
  vlq : VLQ
deriving DecidableEq, Repr

/-- Default `noteList` of `VLQTheoryResult.color` and
`VLQTheoryResult.markNoteEditorial`: `(1, 2, 3, 4)`. -/
def vlqDefaultNoteList : List Int := [1, 2, 3, 4]

/-- `VLQTheoryResult.color(color, noteList)`: sets `currentColor`, then
colors `v1n1` if `1 in noteList`, `v1n2` if `2 in noteList`, `v2n1` if
`3 in noteList`, `v2n2` if `4 in noteList`. -/
def VLQTheoryResult.color (r : VLQTheoryResult) (c : String)
    (noteList : List Int) : VLQTheoryResult :=
  { r with
    currentColor := c
    vlq :=
      { v1n1 := if (1 : Int) ∈ noteList then r.vlq.v1n1.setColor c else r.vlq.v1n1
        v1n2 := if (2 : Int) ∈ noteList then r.vlq.v1n2.setColor c else r.vlq.v1n2
        v2n1 := if (3 : Int) ∈ noteList then r.vlq.v2n1.setColor c else r.vlq.v2n1
        v2n2 := if (4 : Int) ∈ noteList then r.vlq.v2n2.setColor c else r.vlq.v2n2 } }

/-- `VLQTheoryResult.offset(leftAlign)`:
`max(v1n1.offset, v2n1.offset, v1n2.offset, v2n2.offset)`, or `min` of
the same four when `leftAlign` — a pure query, no mutation. -/
def VLQTheoryResult.offset (r : VLQTheoryResult) (leftAlign : Bool) : Int :=
  if leftAlign then
    min r.vlq.v1n1.offset (min r.vlq.v2n1.offset
      (min r.vlq.v1n2.offset r.vlq.v2n2.offset))
  else
    max r.vlq.v1n1.offset (max r.vlq.v2n1.offset
      (max r.vlq.v1n2.offset r.vlq.v2n2.offset))

/-- `VLQTheoryResult.hasEditorial(miscKey, editorialValue)`: disjunction over
the four notes of "key present and equal to the value". -/
def VLQTheoryResult.hasEditorial (r : VLQTheoryResult) (k : String)
    (v : EdVal) : Bool :=
  r.vlq.v1n1.hasMisc k v || r.vlq.v1n2.hasMisc k v ||
    r.vlq.v2n1.hasMisc k v || r.vlq.v2n2.hasMisc k v

/-- `VLQTheoryResult.markNoteEditorial(key, value, editorialMarkList)`:
marks `editorial.misc[key] = value` on each grid note whose selector
(1-4) is in the list.  Does not touch `currentColor`. -/
def VLQTheoryResult.markNoteEditorial (r : VLQTheoryResult) (k : String)
    (v : EdVal) (editorialMarkList : List Int) : VLQTheoryResult :=
  { r with
    vlq :=
      { v1n1 := if (1 : Int) ∈ editorialMarkList then r.vlq.v1n1.markMisc k v else r.vlq.v1n1
        v1n2 := if (2 : Int) ∈ editorialMarkList then r.vlq.v1n2.markMisc k v else r.vlq.v1n2
        v2n1 := if (3 : Int) ∈ editorialMarkList then r.vlq.v2n1.markMisc k v else r.vlq.v2n1
        v2n2 := if (4 : Int) ∈ editorialMarkList then r.vlq.v2n2.markMisc k v else r.vlq.v2n2 } }

/-- An `Interval`-shaped finding: the two note handles. -/
structure MInterval where
  noteStart : MNote
  noteEnd : MNote
deriving DecidableEq, Repr

/-- `IntervalTheoryResult`: base fields plus the wrapped interval. -/
structure IntervalTheoryResult where
  text : String
  value : String
  currentColor : String
  intv : MInterval
deriving DecidableEq, Repr

/-- Default `noteList` of `IntervalTheoryResult.color`: `(1, 2)`. -/
def intervalColorDefaultNoteList : List Int := [1, 2]

/-- Default `noteList` of `IntervalTheoryResult.lyric`: `(2,)`. -/
def intervalLyricDefaultNoteList : List Int := [2]

/-- `IntervalTheoryResult.color(color, noteList)`: sets `currentColor`,
colors `noteStart` if `1 in noteList` and `noteEnd` if `2 in noteList`. -/
def IntervalTheoryResult.color (r : IntervalTheoryResult) (c : String)
    (noteList : List Int) : IntervalTheoryResult :=
  { r with
    currentColor := c
    intv :=
      { noteStart := if (1 : Int) ∈ noteList then r.intv.noteStart.setColor c else r.intv.noteStart
        noteEnd := if (2 : Int) ∈ noteList then r.intv.noteEnd.setColor c else r.intv.noteEnd } }

/-- `IntervalTheoryResult.offset(leftAlign)`:
`max(noteStart.offset, noteEnd.offset)` (or `min` when `leftAlign`) —
a pure query, no mutation. -/
def IntervalTheoryResult.offset (r : IntervalTheoryResult)
    (leftAlign : Bool) : Int :=
  if leftAlign then
    min r.intv.noteStart.offset r.intv.noteEnd.offset
  else
    max r.intv.noteStart.offset r.intv.noteEnd.offset

/-- `IntervalTheoryResult.lyric(value, noteList)`: sets the lyric of
`noteStart` if `1 in noteList` and of `noteEnd` if `2 in noteList`. -/
def IntervalTheoryResult.lyric (r : IntervalTheoryResult) (v : String)
    (noteList : List Int) : IntervalTheoryResult :=
  { r with
    intv :=
      { noteStart := if (1 : Int) ∈ noteList then r.intv.noteStart.setLyric v else r.intv.noteStart
        noteEnd := if (2 : Int) ∈ noteList then r.intv.noteEnd.setLyric v else r.intv.noteEnd } }

/-- `IntervalTheoryResult.hasEditorial(miscKey, editorialValue)`:
disjunction over the two notes. -/
def IntervalTheoryResult.hasEditorial (r : IntervalTheoryResult)
    (k : String) (v : EdVal) : Bool :=
  r.intv.noteStart.hasMisc k v || r.intv.noteEnd.hasMisc k v

/-- `NoteTheoryResult`: base fields plus the wrapped single note `n`. -/
structure NoteTheoryResult where
  text : String
  value : String
  currentColor : String
  n : MNote
deriving DecidableEq, Repr

/-- `NoteTheoryResult.color(color)`: sets `currentColor` and the note's
color. -/
def NoteTheoryResult.color (r : NoteTheoryResult) (c : String) :
    NoteTheoryResult :=
  { r with currentColor := c, n := r.n.setColor c }

/-- A `Verticality`-shaped finding: the notes of one vertical slice,
ordered by part (index `p` in `noteList` is the note of part `p`). -/
structure Verticality where
  noteList : List MNote
deriving DecidableEq, Repr

/-- Modelled from the spec: `Verticality.noteFromPart(partNum)` lives in
`music21/voiceLeading.py`, outside the reviewed source.  Spec section 6:
a column handle exposes an ordered note list and a
`noteFromPart(partIndex)` lookup that fails with a NotFound-style error
for invalid indices.  Modelled as positional lookup into the
ordered-by-part note list. -/
def Verticality.noteFromPart (vs : Verticality) (p : Nat) : Option MNote :=
  vs.noteList.get? p

/-- In-place mutation `vs.noteFromPart(partNum).color = color`: replaces
the part-`p` note by its colored copy, or fails (propagating the
collaborator's lookup error) when part `p` is absent. -/
def Verticality.setColorFromPart : Verticality → Nat → String →
    Except String Verticality
  | ⟨[]⟩, _, _ => .error "noteFromPart: part not found"
  | ⟨n :: rest⟩, 0, c => .ok ⟨n.setColor c :: rest⟩
  | ⟨n :: rest⟩, p + 1, c =>
      (Verticality.setColorFromPart ⟨rest⟩ p c).map
        (fun vs : Verticality => ⟨n :: vs.noteList⟩)

/-- `VerticalityTheoryResult`: base fields plus the wrapped verticality. -/
structure VerticalityTheoryResult where
  text : String
  value : String
  currentColor : String
  vs : Verticality
deriving DecidableEq, Repr

/-- Python truthiness of the `partList` argument: `if partList:` is false
both for `None` and for an empty list. -/
def partListTruthy : Option (List Nat) → Bool
  | none => false
  | some l => !l.isEmpty

/-- `VerticalityTheoryResult.color(color, partList)`: when `partList` is
truthy, `for partNum in partList: vs.noteFromPart(partNum).color = color`
(a failed lookup propagates); otherwise colors every note of
`vs.noteList`.  Does not touch `currentColor`. -/
def VerticalityTheoryResult.color (r : VerticalityTheoryResult) (c : String)
    (partList : Option (List Nat)) : Except String VerticalityTheoryResult :=
  if partListTruthy partList then
    ((partList.getD []).foldlM
        (fun (vs : Verticality) p => vs.setColorFromPart p c) r.vs).map
      (fun vs => { r with vs := vs })
  else
    .ok { r with vs := ⟨r.vs.noteList.map (fun n => n.setColor c)⟩ }

/-- A `ThreeNoteLinearSegment`-shaped finding: the ordered note triple. -/
structure TNLS where
  n1 : MNote
  n2 : MNote
  n3 : MNote
deriving DecidableEq, Repr

/-- Default `noteList` of `ThreeNoteLinearSegmentTheoryResult.color`:
`(2,)` — only the middle note. -/
def tnlsColorDefaultNoteList : List Int := [2]

/-- The note-coloring body of `ThreeNoteLinearSegmentTheoryResult.color`
on the wrapped triple: colors `n1` if `1 in noteList`, `n2` if
`2 in noteList`, `n3` if `3 in noteList`. -/
def TNLS.colorNotes (t : TNLS) (c : String) (noteList : List Int) : TNLS :=
  { n1 := if (1 : Int) ∈ noteList then t.n1.setColor c else t.n1
    n2 := if (2 : Int) ∈ noteList then t.n2.setColor c else t.n2
    n3 := if (3 : Int) ∈ noteList then t.n3.setColor c else t.n3 }

/-- `ThreeNoteLinearSegmentTheoryResult`: base fields plus the wrapped
triple. -/
structure ThreeNoteLinearSegmentTheoryResult where
  text : String
  value : String
  currentColor : String
  tnls : TNLS
deriving DecidableEq, Repr

/-- `ThreeNoteLinearSegmentTheoryResult.color(color, noteList)`: colors
the selected notes of the triple.  Does not touch `currentColor`. -/
def ThreeNoteLinearSegmentTheoryResult.color
    (r : ThreeNoteLinearSegmentTheoryResult) (c : String)
    (noteList : List Int) : ThreeNoteLinearSegmentTheoryResult :=
  { r with tnls := r.tnls.colorNotes c noteList }

/-- A `VerticalityNTuplet`-shaped finding (spec section 6): arity
`nTupletNum`, a part-number-to-triple dictionary `tnlsDict` (insertion
order preserved, as in a Python dict), and an ordered list of
verticalities. -/
structure VerticalityNTuplet where
  nTupletNum : Nat
  tnlsDict : List (Nat × TNLS)
  verticalities : List Verticality
deriving DecidableEq, Repr

/-- `VerticalityNTupletTheoryResult`: base fields, the wrapped n-tuplet
`vsnt`, and the optional `partNumIdentified`. -/
structure VerticalityNTupletTheoryResult where
  text : String
  value : String
  currentColor : String
  vsnt : VerticalityNTuplet
  partNumIdentified : Option Nat
deriving DecidableEq, Repr

/-- `VerticalityNTupletTheoryResult.color(color, partNum, noteList)`.
With an explicit `partNum` and arity 3, the source executes
`self.vsnt.tnlsDict[partNum].color(color)` — a dict lookup (KeyError
propagates) followed by the triple's color with its own DEFAULT
selection `(2,)`; the caller's `noteList` is normalized and then never
used.  With no `partNum` but `partNumIdentified` set and arity 3, it
executes `tnlsDict[partNumIdentified].color(color, [2])`.  Any other
combination (including any call on an arity-2 group) changes nothing. -/
def VerticalityNTupletTheoryResult.color (r : VerticalityNTupletTheoryResult)
    (c : String) (partNum : Option Nat) (noteList : Option (List Int)) :
    Except String VerticalityNTupletTheoryResult :=
  let _ := noteList.getD []
  match partNum with
  | some p =>
      if r.vsnt.nTupletNum = 3 then
        match r.vsnt.tnlsDict.lookup p with
        | some t =>
            .ok { r with vsnt := { r.vsnt with
              tnlsDict := assocSet r.vsnt.tnlsDict p
                (t.colorNotes c tnlsColorDefaultNoteList) } }
        | none => .error "KeyError"
      else .ok r
  | none =>
      match r.partNumIdentified with
      | some pid =>
          if r.vsnt.nTupletNum = 3 then
            match r.vsnt.tnlsDict.lookup pid with
            | some t =>
                .ok { r with vsnt := { r.vsnt with
                  tnlsDict := assocSet r.vsnt.tnlsDict pid
                    (t.colorNotes c [2]) } }
            | none => .error "KeyError"
          else .ok r
      | none => .ok r

/-- Modelled from the spec: `getObjectsByPart(partIndex, filter)` lives in
`music21/voiceLeading.py`, outside the reviewed source.  Spec section 6:
a group handle's verticalities expose a `getObjectsByPart` lookup used
for editorial marking; a failed lookup is a collaborator-defined error,
propagated.  The source always calls it with part index 0 and a Note
filter, so it is modelled as marking the part-0 (head) note of the
verticality, failing when that part is absent. -/
def Verticality.markMiscAtPart0 (vs : Verticality) (k : String) (v : EdVal) :
    Except String Verticality :=
  match vs.noteList with
  | [] => .error "getObjectsByPart: part not found"
  | n :: rest => .ok ⟨n.markMisc k v :: rest⟩

/-- List indexing `verticalities[vsNum]` followed by an in-place update of
that element; an out-of-range index propagates as an IndexError. -/
def updateVerticalityAt : List Verticality → Nat →
    (Verticality → Except String Verticality) → Except String (List Verticality)
  | [], _, _ => .error "IndexError"
  | vs :: rest, 0, f => (f vs).map (fun vs2 => vs2 :: rest)
  | vs :: rest, n + 1, f => (updateVerticalityAt rest n f).map (fun l => vs :: l)

/-- Default `editorialMarkDict` of
`VerticalityNTupletTheoryResult.markNoteEditorial`: `{2: [1]}`. -/
def defaultEditorialMarkDict : List (Nat × List Nat) := [(2, [1])]

/-- `VerticalityNTupletTheoryResult.markNoteEditorial(key, value,
editorialMarkDict)`: for each entry `vsNum -> partNumList` of the plan
(default `{2: [1]}`), and for each element of `partNumList` — whose
VALUE the source ignores (`unused_counter_partNum`) — it executes
`self.vsnt.verticalities[vsNum].getObjectsByPart(0, ['Note'])
.editorial.misc[key] = value`, i.e. marks the part-0 note of the
verticality at index `vsNum`, once per list element. -/
def VerticalityNTupletTheoryResult.markNoteEditorial
    (r : VerticalityNTupletTheoryResult) (k : String) (v : EdVal)
    (editorialMarkDict : Option (List (Nat × List Nat))) :
    Except String VerticalityNTupletTheoryResult :=
  let d := editorialMarkDict.getD defaultEditorialMarkDict
  (d.foldlM
      (fun vsl (entry : Nat × List Nat) =>
        entry.2.foldlM
          (fun acc _ =>
            updateVerticalityAt acc entry.1 (fun vs => vs.markMiscAtPart0 k v))
          vsl)
      r.vsnt.verticalities).map
    (fun vsl => { r with vsnt := { r.vsnt with verticalities := vsl } })

/-! Concrete fixtures used by counterexamples and witnesses. -/

/-- An uncolored, unlyriced, unmarked note at offset 0. -/
def sampleNoteA : MNote := { color := "", lyric := "", misc := [], offset := 0 }

/-- An uncolored, unlyriced, unmarked note at offset 1. -/
def sampleNoteB : MNote := { color := "", lyric := "", misc := [], offset := 1 }

/-- An uncolored, unlyriced, unmarked note at offset 2. -/
def sampleNoteC : MNote := { color := "", lyric := "", misc := [], offset := 2 }

/-- A pristine three-note linear segment. -/
def sampleTriple : TNLS := { n1 := sampleNoteA, n2 := sampleNoteB, n3 := sampleNoteC }

/-- An arity-3 group result with one sub-finding at part key 0 and three
verticalities. -/
def sampleGroup3 : VerticalityNTupletTheoryResult :=
  { text := "", value := "", currentColor := "", partNumIdentified := none,
    vsnt := { nTupletNum := 3, tnlsDict := [(0, sampleTriple)],
              verticalities := [⟨[sampleNoteA, sampleNoteB]⟩, ⟨[sampleNoteA]⟩,
                                ⟨[sampleNoteB, sampleNoteC]⟩] } }

/-- The same group with arity 2. -/
def sampleGroup2 : VerticalityNTupletTheoryResult :=
  { sampleGroup3 with vsnt := { sampleGroup3.vsnt with nTupletNum := 2 } }

/-- A verticality result over two pristine notes. -/
def sampleVertRes : VerticalityTheoryResult :=
  { text := "", value := "", currentColor := "", vs := ⟨[sampleNoteA, sampleNoteB]⟩ }

/-- A triple-shaped result over pristine notes. -/
def sampleTripleRes : ThreeNoteLinearSegmentTheoryResult :=
  { text := "", value := "", currentColor := "", tnls := sampleTriple }

/-! Claim theorems. -/

/-- C1 counterexample: on an arity-3 group, `color("blue", partKey=0)` with
no selection delegates as `tnlsDict[0].color("blue")` — the sub-finding's
own default selection `(2,)` applies, so only `n2` turns blue while `n1`
and `n3` keep their empty color, contradicting the claim that all three
positions are colored (and that the caller's selection is passed
through). -/
theorem c1_counterexample :
    (sampleGroup3.color "blue" (some 0) none).map
        (fun r => (r.vsnt.tnlsDict.lookup 0).map
          (fun t => (t.n1.color, t.n2.color, t.n3.color)))
      = .ok (some ("", "blue", "")) ∧ ("" : String) ≠ "blue" :=
  ⟨rfl, by decide⟩

/-- C1 amended: on an arity-3 group, `color(c, partKey, sel)` with a
`partKey` bound in `tnlsDict` succeeds and recolors ONLY position `n2`
of that sub-finding (the sub-finding's default selection), ignoring the
caller's selection entirely; everything else is unchanged. -/
theorem c1_amended (r : VerticalityNTupletTheoryResult) (c : String)
    (p : Nat) (t : TNLS) (sel : Option (List Int))
    (h3 : r.vsnt.nTupletNum = 3)
    (hp : r.vsnt.tnlsDict.lookup p = some t) :
    r.color c (some p) sel =
      .ok { r with vsnt := { r.vsnt with
        tnlsDict := assocSet r.vsnt.tnlsDict p
          { t with n2 := t.n2.setColor c } } } := by
  simp [VerticalityNTupletTheoryResult.color, h3, hp, TNLS.colorNotes,
    tnlsColorDefaultNoteList]

/-- C1 amended, witness at the sample group. -/
theorem c1_amended_witness :
    sampleGroup3.color "blue" (some 0) (some [1, 2, 3]) =
      .ok { sampleGroup3 with vsnt := { sampleGroup3.vsnt with
        tnlsDict := assocSet sampleGroup3.vsnt.tnlsDict 0
          { sampleTriple with n2 := sampleTriple.n2.setColor "blue" } } } :=
  c1_amended sampleGroup3 "blue" 0 sampleTriple (some [1, 2, 3]) rfl rfl

/-- C3 counterexample: `VerticalityTheoryResult.color` never assigns
`currentColor`, so after `color("red")` the field still holds its old
value `""`, not `"red"`. -/
theorem c3_counterexample :
    (sampleVertRes.color "red" none).map (fun r => r.currentColor) = .ok "" ∧
    ("" : String) ≠ "red" :=
  ⟨rfl, by decide⟩

/-- C3 amended: after any `color` call, `currentColor` equals the color
argument for the base result and the quad-, pair- and singleton-shaped
results, but the column-, triple- and group-shaped results leave
`currentColor` untouched, whatever the selection. -/
theorem c3_amended (rb : TheoryResult) (rq : VLQTheoryResult)
    (rp : IntervalTheoryResult) (rn : NoteTheoryResult)
    (rv : VerticalityTheoryResult) (rt : ThreeNoteLinearSegmentTheoryResult)
    (rg : VerticalityNTupletTheoryResult) (c : String) (sel : List Int)
    (plist : Option (List Nat)) (pn : Option Nat) (gsel : Option (List Int)) :
    (rb.color c).currentColor = c ∧
    (rq.color c sel).currentColor = c ∧
    (rp.color c sel).currentColor = c ∧
    (rn.color c).currentColor = c ∧
    (rv.color c plist).map (fun r => r.currentColor)
      = (rv.color c plist).map (fun _ => rv.currentColor) ∧
    (rt.color c sel).currentColor = rt.currentColor ∧
    (rg.color c pn gsel).map (fun r => r.currentColor)
      = (rg.color c pn gsel).map (fun _ => rg.currentColor) := by
  refine ⟨rfl, rfl, rfl, rfl, ?_, rfl, ?_⟩
  · unfold VerticalityTheoryResult.color
    split
    · cases h : ((plist.getD []).foldlM
          (fun (vs : Verticality) p => vs.setColorFromPart p c) rv.vs) <;>
        simp [Except.map, h]
    · rfl
  · unfold VerticalityNTupletTheoryResult.color
    cases pn with
    | some p =>
        by_cases h3 : rg.vsnt.nTupletNum = 3
        · cases hl : rg.vsnt.tnlsDict.lookup p <;> simp [h3, hl, Except.map]
        · simp [h3, Except.map]
    | none =>
        cases hid : rg.partNumIdentified with
        | some pid =>
            by_cases h3 : rg.vsnt.nTupletNum = 3
            · cases hl : rg.vsnt.tnlsDict.lookup pid <;>
                simp [h3, hl, hid, Except.map]
            · simp [h3, hid, Except.map]
        | none => simp [hid, Except.map]

/-- C4 counterexample: the triple-shaped result's default selection is
`(2,)`, so `color("blue")` with the default leaves `n1` and `n3` with
their empty color — not every constituent note is colored. -/
theorem c4_counterexample :
    (sampleTripleRes.color "blue" tnlsColorDefaultNoteList).tnls.n1.color = "" ∧
    (sampleTripleRes.color "blue" tnlsColorDefaultNoteList).tnls.n3.color = "" ∧
    ("" : String) ≠ "blue" :=
  ⟨rfl, rfl, by decide⟩

/-- C4 amended: with the default selection, `color` colors every
constituent note of the quad-, pair-, singleton- and column-shaped
results, but the triple-shaped result colors only the middle note `n2`,
leaving `n1` and `n3` unchanged. -/
theorem c4_amended (rq : VLQTheoryResult) (rp : IntervalTheoryResult)
    (rn : NoteTheoryResult) (rv : VerticalityTheoryResult)
    (rt : ThreeNoteLinearSegmentTheoryResult) (c : String) :
    (rq.color c vlqDefaultNoteList).vlq =
      { v1n1 := rq.vlq.v1n1.setColor c, v1n2 := rq.vlq.v1n2.setColor c,
        v2n1 := rq.vlq.v2n1.setColor c, v2n2 := rq.vlq.v2n2.setColor c } ∧
    (rp.color c intervalColorDefaultNoteList).intv =
      { noteStart := rp.intv.noteStart.setColor c,
        noteEnd := rp.intv.noteEnd.setColor c } ∧
    (rn.color c).n = rn.n.setColor c ∧
    rv.color c none =
      .ok { rv with vs := ⟨rv.vs.noteList.map (fun n => n.setColor c)⟩ } ∧
    (rt.color c tnlsColorDefaultNoteList).tnls =
      { rt.tnls with n2 := rt.tnls.n2.setColor c } := by
  refine ⟨?_, ?_, rfl, rfl, ?_⟩
  · simp [VLQTheoryResult.color, vlqDefaultNoteList]
  · simp [IntervalTheoryResult.color, intervalColorDefaultNoteList]
  · simp [ThreeNoteLinearSegmentTheoryResult.color, TNLS.colorNotes,
      tnlsColorDefaultNoteList]

/-- The quad shape's valid positional selectors. -/
def vlqValidSelectors : List Int := [1, 2, 3, 4]

/-- The pair shape's valid positional selectors. -/
def intervalValidSelectors : List Int := [1, 2]

/-- The triple shape's valid positional selectors. -/
def tnlsValidSelectors : List Int := [1, 2, 3]

/-- A valid selector survives filtering a selection list down to the
valid set: it is in the filtered list exactly when it is in the
original. -/
theorem mem_filter_valid (sel valid : List Int) (i : Int) (hi : i ∈ valid) :
    (i ∈ sel.filter (fun x => decide (x ∈ valid))) ↔ i ∈ sel := by
  simp [List.mem_filter, hi]

/-- C5: for pair, quad and triple results, each mutating operation with
an explicit selection list mutates exactly the notes at the valid
positions listed (pair `color`/`lyric` over positions 1-2, quad
`color`/`markNoteEditorial` over 1-4, triple `color` over 1-3): a
selected position is replaced by the mutated note, an unselected one is
returned unchanged, and the whole call is invariant under discarding
selectors outside the shape's valid set (so invalid selectors are
silently ignored; the operations are total functions, so no error can
be raised). -/
theorem c5_selection_frame (rq : VLQTheoryResult) (rp : IntervalTheoryResult)
    (rt : ThreeNoteLinearSegmentTheoryResult) (c lv k : String) (v : EdVal)
    (sel : List Int) :
    ((rq.color c sel).vlq.v1n1
        = (if (1 : Int) ∈ sel then rq.vlq.v1n1.setColor c else rq.vlq.v1n1) ∧
     (rq.color c sel).vlq.v1n2
        = (if (2 : Int) ∈ sel then rq.vlq.v1n2.setColor c else rq.vlq.v1n2) ∧
     (rq.color c sel).vlq.v2n1
        = (if (3 : Int) ∈ sel then rq.vlq.v2n1.setColor c else rq.vlq.v2n1) ∧
     (rq.color c sel).vlq.v2n2
        = (if (4 : Int) ∈ sel then rq.vlq.v2n2.setColor c else rq.vlq.v2n2) ∧
     rq.color c sel
        = rq.color c (sel.filter (fun x => decide (x ∈ vlqValidSelectors)))) ∧
    ((rq.markNoteEditorial k v sel).vlq.v1n1
        = (if (1 : Int) ∈ sel then rq.vlq.v1n1.markMisc k v else rq.vlq.v1n1) ∧
     (rq.markNoteEditorial k v sel).vlq.v1n2
        = (if (2 : Int) ∈ sel then rq.vlq.v1n2.markMisc k v else rq.vlq.v1n2) ∧
     (rq.markNoteEditorial k v sel).vlq.v2n1
        = (if (3 : Int) ∈ sel then rq.vlq.v2n1.markMisc k v else rq.vlq.v2n1) ∧
     (rq.markNoteEditorial k v sel).vlq.v2n2
        = (if (4 : Int) ∈ sel then rq.vlq.v2n2.markMisc k v else rq.vlq.v2n2) ∧
     (rq.markNoteEditorial k v sel).currentColor = rq.currentColor ∧
     rq.markNoteEditorial k v sel
        = rq.markNoteEditorial k v
            (sel.filter (fun x => decide (x ∈ vlqValidSelectors)))) ∧
    ((rp.color c sel).intv.noteStart
        = (if (1 : Int) ∈ sel then rp.intv.noteStart.setColor c else rp.intv.noteStart) ∧
     (rp.color c sel).intv.noteEnd
        = (if (2 : Int) ∈ sel then rp.intv.noteEnd.setColor c else rp.intv.noteEnd) ∧
     rp.color c sel
        = rp.color c (sel.filter (fun x => decide (x ∈ intervalValidSelectors)))) ∧
    ((rp.lyric lv sel).intv.noteStart
        = (if (1 : Int) ∈ sel then rp.intv.noteStart.setLyric lv else rp.intv.noteStart) ∧
     (rp.lyric lv sel).intv.noteEnd
        = (if (2 : Int) ∈ sel then rp.intv.noteEnd.setLyric lv else rp.intv.noteEnd) ∧
     rp.lyric lv sel
        = rp.lyric lv (sel.filter (fun x => decide (x ∈ intervalValidSelectors)))) ∧
    ((rt.color c sel).tnls.n1
        = (if (1 : Int) ∈ sel then rt.tnls.n1.setColor c else rt.tnls.n1) ∧
     (rt.color c sel).tnls.n2
        = (if (2 : Int) ∈ sel then rt.tnls.n2.setColor c else rt.tnls.n2) ∧
     (rt.color c sel).tnls.n3
        = (if (3 : Int) ∈ sel then rt.tnls.n3.setColor c else rt.tnls.n3) ∧
     rt.color c sel
        = rt.color c (sel.filter (fun x => decide (x ∈ tnlsValidSelectors)))) := by
  have hq1 := mem_filter_valid sel vlqValidSelectors 1 (by decide)
  have hq2 := mem_filter_valid sel vlqValidSelectors 2 (by decide)
  have hq3 := mem_filter_valid sel vlqValidSelectors 3 (by decide)
  have hq4 := mem_filter_valid sel vlqValidSelectors 4 (by decide)
  have hp1 := mem_filter_valid sel intervalValidSelectors 1 (by decide)
  have hp2 := mem_filter_valid sel intervalValidSelectors 2 (by decide)
  have ht1 := mem_filter_valid sel tnlsValidSelectors 1 (by decide)
  have ht2 := mem_filter_valid sel tnlsValidSelectors 2 (by decide)
  have ht3 := mem_filter_valid sel tnlsValidSelectors 3 (by decide)
  refine ⟨⟨rfl, rfl, rfl, rfl, ?_⟩, ⟨rfl, rfl, rfl, rfl, rfl, ?_⟩,
    ⟨rfl, rfl, ?_⟩, ⟨rfl, rfl, ?_⟩, ⟨rfl, rfl, rfl, ?_⟩⟩
  · simp [VLQTheoryResult.color, hq1, hq2, hq3, hq4]
  · simp [VLQTheoryResult.markNoteEditorial, hq1, hq2, hq3, hq4]
  · simp [IntervalTheoryResult.color, hp1, hp2]
  · simp [IntervalTheoryResult.lyric, hp1, hp2]
  · simp [ThreeNoteLinearSegmentTheoryResult.color, TNLS.colorNotes, ht1, ht2, ht3]

/-- The list of constituent offsets of a quad result. -/
def vlqOffsets (r : VLQTheoryResult) : List Int :=
  [r.vlq.v1n1.offset, r.vlq.v1n2.offset, r.vlq.v2n1.offset, r.vlq.v2n2.offset]

/-- The list of constituent offsets of a pair result. -/
def intervalOffsets (r : IntervalTheoryResult) : List Int :=
  [r.intv.noteStart.offset, r.intv.noteEnd.offset]

/-- C6: for pair and quad results, `offset(leftAlign=false)` is the
maximum of the constituent notes' offsets (it is one of them and bounds
them all) and `offset(leftAlign=true)` is their minimum.  The embedded
`offset` is a pure query `State -> Int` — the source body contains no
assignment — so the call mutates nothing by construction. -/
theorem c6_offset_minmax (rq : VLQTheoryResult) (rp : IntervalTheoryResult) :
    (rq.offset false ∈ vlqOffsets rq ∧ ∀ x ∈ vlqOffsets rq, x ≤ rq.offset false) ∧
    (rq.offset true ∈ vlqOffsets rq ∧ ∀ x ∈ vlqOffsets rq, rq.offset true ≤ x) ∧
    (rp.offset false ∈ intervalOffsets rp ∧
      ∀ x ∈ intervalOffsets rp, x ≤ rp.offset false) ∧
    (rp.offset true ∈ intervalOffsets rp ∧
      ∀ x ∈ intervalOffsets rp, rp.offset true ≤ x) := by
  refine ⟨⟨?_, ?_⟩, ⟨?_, ?_⟩, ⟨?_, ?_⟩, ⟨?_, ?_⟩⟩ <;>
    simp [VLQTheoryResult.offset, IntervalTheoryResult.offset, vlqOffsets,
      intervalOffsets] <;> omega

/-- A note's `hasMisc` test succeeds exactly when the key is present and
mapped to the value. -/
theorem hasMisc_iff_lookup (n : MNote) (k : String) (v : EdVal) :
    n.hasMisc k v = true ↔ n.misc.lookup k = some v := by
  unfold MNote.hasMisc
  cases h : n.misc.lookup k with
  | none => simp
  | some w => simp

/-- C7: for pair and quad results, `hasEditorial(key, value)` returns
true if and only if at least one constituent note's `editorial.misc`
maps `key` to `value`; a note lacking the key contributes false to the
disjunction, and the test is total (never an error). -/
theorem c7_hasEditorial_iff (rq : VLQTheoryResult) (rp : IntervalTheoryResult)
    (k : String) (v : EdVal) :
    (rq.hasEditorial k v = true ↔
      ∃ n ∈ [rq.vlq.v1n1, rq.vlq.v1n2, rq.vlq.v2n1, rq.vlq.v2n2],
        n.misc.lookup k = some v) ∧
    (rp.hasEditorial k v = true ↔
      ∃ n ∈ [rp.intv.noteStart, rp.intv.noteEnd],
        n.misc.lookup k = some v) := by
  constructor <;>
    simp [VLQTheoryResult.hasEditorial, IntervalTheoryResult.hasEditorial,
      Bool.or_eq_true, hasMisc_iff_lookup] <;> tauto

/-- Writing the same binding twice into an association list is the same
as writing it once. -/
theorem assocSet_assocSet {α β : Type} [DecidableEq α]
    (m : List (α × β)) (k : α) (v : β) :
    assocSet (assocSet m k v) k v = assocSet m k v := by
  induction m with
  | nil => simp [assocSet]
  | cons hd tl ih =>
      obtain ⟨k', v'⟩ := hd
      by_cases h : k' = k
      · simp [assocSet, h]
      · simp [assocSet, h, ih]

/-- Marking the same editorial entry twice equals marking it once. -/
theorem markMisc_markMisc (n : MNote) (k : String) (v : EdVal) :
    (n.markMisc k v).markMisc k v = n.markMisc k v := by
  simp [MNote.markMisc, assocSet_assocSet]

/-- A successful in-place update of the verticality at a valid index
replaces exactly that list element. -/
theorem updateVerticalityAt_ok (vsl : List Verticality)
    (f : Verticality → Except String Verticality) (vs vs2 : Verticality) :
    ∀ i : Nat, vsl.get? i = some vs → f vs = .ok vs2 →
      updateVerticalityAt vsl i f = .ok (vsl.set i vs2) := by
  induction vsl with
  | nil => intro i hget _; simp at hget
  | cons hd tl ih =>
      intro i hget hf
      cases i with
      | zero =>
          simp only [List.get?_cons_zero, Option.some.injEq] at hget
          subst hget
          simp [updateVerticalityAt, hf, Except.map]
      | succ j =>
          simp only [List.get?_cons_succ] at hget
          simp [updateVerticalityAt, ih j hget hf, Except.map]

/-- Once the part-0 note of the verticality at index `i` is marked,
marking it again through `updateVerticalityAt` changes nothing. -/
theorem updateVerticalityAt_mark_fix (vsl : List Verticality) (i : Nat)
    (k : String) (v : EdVal) (n0 : MNote) (rest : List MNote)
    (hget : vsl.get? i = some ⟨n0 :: rest⟩) :
    updateVerticalityAt (vsl.set i ⟨n0.markMisc k v :: rest⟩) i
        (fun vs => vs.markMiscAtPart0 k v)
      = .ok (vsl.set i ⟨n0.markMisc k v :: rest⟩) := by
  have hget2 : (vsl.set i ⟨n0.markMisc k v :: rest⟩).get? i
      = some ⟨n0.markMisc k v :: rest⟩ := by
    rw [List.get?_set_eq, hget]; rfl
  have := updateVerticalityAt_ok (vsl.set i ⟨n0.markMisc k v :: rest⟩)
    (fun vs => vs.markMiscAtPart0 k v) ⟨n0.markMisc k v :: rest⟩
    ⟨(n0.markMisc k v).markMisc k v :: rest⟩ i hget2
    (by simp [Verticality.markMiscAtPart0])
  rw [this, markMisc_markMisc, List.set_set]

/-- Iterating the per-part-number marking step over a nonempty part list
marks the part-0 note of the verticality at index `i` exactly once: the
part numbers themselves never influence the result. -/
theorem markFold_eq (i : Nat) (k : String) (v : EdVal)
    (vsl : List Verticality) (n0 : MNote) (rest : List MNote)
    (hget : vsl.get? i = some ⟨n0 :: rest⟩) :
    ∀ ps : List Nat, ps ≠ [] →
      ps.foldlM
          (fun acc _ => updateVerticalityAt acc i
            (fun vs => vs.markMiscAtPart0 k v)) vsl
        = .ok (vsl.set i ⟨n0.markMisc k v :: rest⟩) := by
  have hfixAll : ∀ ps : List Nat,
      ps.foldlM
          (fun acc _ => updateVerticalityAt acc i
            (fun vs => vs.markMiscAtPart0 k v))
          (vsl.set i ⟨n0.markMisc k v :: rest⟩)
        = .ok (vsl.set i ⟨n0.markMisc k v :: rest⟩) := by
    intro ps
    induction ps with
    | nil => rfl
    | cons p ps ih =>
        rw [List.foldlM_cons, updateVerticalityAt_mark_fix vsl i k v n0 rest hget]
        exact ih
  intro ps hps
  cases ps with
  | nil => exact absurd rfl hps
  | cons p ps =>
      rw [List.foldlM_cons,
        updateVerticalityAt_ok vsl (fun vs => vs.markMiscAtPart0 k v)
          ⟨n0 :: rest⟩ ⟨n0.markMisc k v :: rest⟩ i hget
          (by simp [Verticality.markMiscAtPart0])]
      exact hfixAll ps

/-- The per-verticality effect C2's amended statement predicts — the
spec-side comparison function: set the editorial mark on the part-0
(head) note of the verticality.  An empty verticality is returned
unchanged; under the amended theorem's hypotheses that case never
arises (the real operation fails there instead). -/
def specMarkPart0 (k : String) (v : EdVal) (vs : Verticality) : Verticality :=
  match vs.noteList with
  | [] => vs
  | n :: rest => ⟨n.markMisc k v :: rest⟩

/-- Folding the per-entry marking step of `markNoteEditorial` over an
arbitrary plan marks, for each entry with a nonempty part list, the
part-0 note of the verticality at the entry's index, and nothing else.
`done` tracks the indices already marked by earlier processing; marking
an already-marked verticality again is idempotent. -/
theorem markPlanFold_ok (k : String) (v : EdVal) (orig : List Verticality) :
    ∀ (d : List (Nat × List Nat)) (done : List Nat),
      (∀ e ∈ d, e.2 ≠ [] →
        ∃ n0 rest, orig.get? e.1 = some (⟨n0 :: rest⟩ : Verticality)) →
      ∀ cur : List Verticality,
        cur.length = orig.length →
        (∀ j : Nat, cur.get? j = (orig.get? j).map
          (fun vs => if j ∈ done then specMarkPart0 k v vs else vs)) →
        ∃ res : List Verticality,
          d.foldlM
              (fun vsl (entry : Nat × List Nat) =>
                entry.2.foldlM
                  (fun acc _ =>
                    updateVerticalityAt acc entry.1
                      (fun vs => vs.markMiscAtPart0 k v)) vsl)
              cur
            = .ok res ∧
          res.length = orig.length ∧
          ∀ j : Nat, res.get? j = (orig.get? j).map
            (fun vs => if (j ∈ done ∨ ∃ e ∈ d, e.1 = j ∧ e.2 ≠ [])
              then specMarkPart0 k v vs else vs) := by
  intro d
  induction d with
  | nil =>
      intro done _ cur hlen hpt
      refine ⟨cur, rfl, hlen, ?_⟩
      intro j
      rw [hpt j]
      cases h : orig.get? j <;> simp
  | cons e d ih =>
      obtain ⟨i, ps⟩ := e
      intro done hvalid cur hlen hpt
      by_cases hps : ps = []
      · subst hps
        obtain ⟨res, heq, hlen2, hpt2⟩ :=
          ih done (fun e he h2 => hvalid e (List.mem_cons_of_mem _ he) h2)
            cur hlen hpt
        refine ⟨res, ?_, hlen2, ?_⟩
        · rw [List.foldlM_cons]
          exact heq
        · intro j
          rw [hpt2 j]
          cases h : orig.get? j with
          | none => rfl
          | some vs =>
              by_cases h1 : j ∈ done <;>
                by_cases h3 : ∃ e2 ∈ d, e2.1 = j ∧ e2.2 ≠ [] <;>
                  simp [h1, h3, List.exists_mem_cons_iff]
      · obtain ⟨n0, rest, hget⟩ := hvalid (i, ps) (List.mem_cons_self _ _) hps
        have hcuri : cur.get? i
            = some (if i ∈ done then specMarkPart0 k v ⟨n0 :: rest⟩
                else ⟨n0 :: rest⟩) := by
          rw [hpt i, hget]; rfl
        have hstep : ps.foldlM
            (fun acc _ => updateVerticalityAt acc i
              (fun vs => vs.markMiscAtPart0 k v)) cur
          = .ok (cur.set i ⟨n0.markMisc k v :: rest⟩) := by
          by_cases hdone : i ∈ done
          · have hcuri2 : cur.get? i = some ⟨n0.markMisc k v :: rest⟩ := by
              rw [hcuri]; simp [hdone, specMarkPart0]
            have h2 := markFold_eq i k v cur (n0.markMisc k v) rest hcuri2 ps hps
            rwa [markMisc_markMisc] at h2
          · have hcuri2 : cur.get? i = some ⟨n0 :: rest⟩ := by
              rw [hcuri]; simp [hdone]
            exact markFold_eq i k v cur n0 rest hcuri2 ps hps
        have hcur2 : ∀ j : Nat,
            (cur.set i ⟨n0.markMisc k v :: rest⟩).get? j
              = (orig.get? j).map
                (fun vs => if j ∈ i :: done then specMarkPart0 k v vs else vs) := by
          intro j
          by_cases hj : j = i
          · subst hj
            rw [List.get?_set_eq, hcuri, hget]
            simp [specMarkPart0, List.mem_cons]
          · rw [List.get?_set_ne _ _ (fun h => hj h.symm), hpt j]
            cases h : orig.get? j <;> simp [List.mem_cons, hj]
        obtain ⟨res, heq3, hlen3, hpt3⟩ :=
          ih (i :: done) (fun e he h2 => hvalid e (List.mem_cons_of_mem _ he) h2)
            (cur.set i ⟨n0.markMisc k v :: rest⟩)
            (by rw [List.length_set]; exact hlen) hcur2
        refine ⟨res, ?_, hlen3, ?_⟩
        · rw [List.foldlM_cons]
          show (ps.foldlM (fun acc _ => updateVerticalityAt acc i
              (fun vs => vs.markMiscAtPart0 k v)) cur) >>= _ = .ok res
          rw [hstep]
          exact heq3
        · intro j
          rw [hpt3 j]
          cases h : orig.get? j with
          | none => rfl
          | some vs =>
              by_cases h2 : j = i
              · subst h2
                simp [List.mem_cons, List.exists_mem_cons_iff, hps]
              · have h2' : ¬ i = j := fun heq => h2 heq.symm
                by_cases h1 : j ∈ done <;>
                  by_cases h3 : ∃ e2 ∈ d, e2.1 = j ∧ e2.2 ≠ [] <;>
                    simp [List.mem_cons, List.exists_mem_cons_iff, h1, h2, h2', h3]

/-- C2 counterexample: with the plan `{0: [1]}` on the sample group —
whose verticality 0 holds distinct notes for parts 0 and 1 —
`markNoteEditorial("flag", True, plan)` marks the PART-0 note of
verticality 0 (its `misc` becomes `{"flag": True}`), while the listed
part-1 note stays unmarked (`misc` stays empty), contradicting the
claim that the note of each listed part number is marked. -/
theorem c2_counterexample :
    (sampleGroup3.markNoteEditorial "flag" (.boolVal true) (some [(0, [1])])).map
        (fun r => r.vsnt.verticalities.map (fun vs => vs.noteList.map
          (fun n => n.misc)))
      = .ok [[[("flag", EdVal.boolVal true)], []], [[]], [[], []]] ∧
    ([] : List (String × EdVal)).lookup "flag" = none :=
  ⟨rfl, rfl⟩

/-- C2 amended: for EVERY markPlan whose entries with nonempty part
lists point at verticalities that exist and have a part-0 note,
`markNoteEditorial(key, value, markPlan)` sets
`editorial.misc[key] = value` on the PART-0 note of the verticality at
each such entry's index — the listed part numbers are ignored (the
lookup is hardcoded to part 0; a nonempty list only repeats the same
idempotent assignment, and an empty list's entry does nothing) — and
leaves every other verticality and every other note unchanged; the
default plan is `{2: [1]}`, so the default call marks exactly the
part-0 note of the verticality at index 2. -/
theorem c2_amended (r : VerticalityNTupletTheoryResult) (k : String)
    (v : EdVal) (d : List (Nat × List Nat))
    (hvalid : ∀ e ∈ d, e.2 ≠ [] →
      ∃ n0 rest, r.vsnt.verticalities.get? e.1
        = some (⟨n0 :: rest⟩ : Verticality)) :
    (∃ res : List Verticality,
      r.markNoteEditorial k v (some d) =
        .ok { r with vsnt := { r.vsnt with verticalities := res } } ∧
      res.length = r.vsnt.verticalities.length ∧
      ∀ j : Nat, res.get? j = (r.vsnt.verticalities.get? j).map
        (fun vs => if ∃ e ∈ d, e.1 = j ∧ e.2 ≠ []
          then specMarkPart0 k v vs else vs)) ∧
    r.markNoteEditorial k v none
      = r.markNoteEditorial k v (some defaultEditorialMarkDict) := by
  refine ⟨?_, rfl⟩
  obtain ⟨res, heq, hlen, hpt⟩ :=
    markPlanFold_ok k v r.vsnt.verticalities d [] hvalid
      r.vsnt.verticalities rfl
      (fun j => by cases h : r.vsnt.verticalities.get? j <;> simp)
  refine ⟨res, ?_, hlen, ?_⟩
  · unfold VerticalityNTupletTheoryResult.markNoteEditorial
    simp only [Option.getD_some]
    rw [heq]
    rfl
  · intro j
    rw [hpt j]
    cases h : r.vsnt.verticalities.get? j with
    | none => rfl
    | some vs =>
        refine congrArg some (if_congr ?_ rfl rfl)
        simp

/-- C2 amended, witness: a two-entry plan `{2: [1], 0: [3, 4]}` on the
sample group marks the part-0 notes of the verticalities at indices 2
and 0 (whatever the listed part numbers say) and touches nothing
else. -/
theorem c2_amended_witness :
    sampleGroup3.markNoteEditorial "doubledLeadingTone" (.boolVal true)
        (some [(2, [1]), (0, [3, 4])]) =
      .ok { sampleGroup3 with vsnt := { sampleGroup3.vsnt with
        verticalities :=
          [⟨[sampleNoteA.markMisc "doubledLeadingTone" (.boolVal true),
             sampleNoteB]⟩,
           ⟨[sampleNoteA]⟩,
           ⟨[sampleNoteB.markMisc "doubledLeadingTone" (.boolVal true),
             sampleNoteC]⟩] } } := by
  obtain ⟨⟨res, heq, hlen, hpt⟩, -⟩ :=
    c2_amended sampleGroup3 "doubledLeadingTone" (.boolVal true)
      [(2, [1]), (0, [3, 4])]
      (by
        intro e he hne
        rcases List.mem_cons.mp he with rfl | he2
        · exact ⟨sampleNoteB, [sampleNoteC], rfl⟩
        rcases List.mem_cons.mp he2 with rfl | he3
        · exact ⟨sampleNoteA, [sampleNoteB], rfl⟩
        · simp at he3)
  have hres : res =
      [⟨[sampleNoteA.markMisc "doubledLeadingTone" (.boolVal true),
         sampleNoteB]⟩,
       ⟨[sampleNoteA]⟩,
       ⟨[sampleNoteB.markMisc "doubledLeadingTone" (.boolVal true),
         sampleNoteC]⟩] := by
    apply List.ext
    intro j
    rw [hpt j]
    cases j with
    | zero => decide
    | succ j1 =>
        cases j1 with
        | zero => decide
        | succ j2 =>
            cases j2 with
            | zero => decide
            | succ j3 => rfl
  rw [heq, hres]

/-- C9: on an arity-2 group, `color` with ANY combination of color,
part key and selection returns the state unchanged (no note recolored,
no sub-finding's color invoked, no error raised). -/
theorem c9_arity2_noop (r : VerticalityNTupletTheoryResult) (c : String)
    (pn : Option Nat) (nl : Option (List Int))
    (h2 : r.vsnt.nTupletNum = 2) :
    r.color c pn nl = .ok r := by
  unfold VerticalityNTupletTheoryResult.color
  cases pn with
  | some p => simp [h2]
  | none => cases r.partNumIdentified <;> simp [h2]

/-- C9, witness at the arity-2 sample group. -/
theorem c9_arity2_noop_witness :
    sampleGroup2.color "blue" (some 0) (some [1, 2, 3]) = .ok sampleGroup2 :=
  c9_arity2_noop sampleGroup2 "blue" (some 0) (some [1, 2, 3]) rfl

/-- C10: on an arity-3 group, `color` with an explicit part key that is
not a key of `tnlsDict` fails with the propagated KeyError of the dict
lookup (unlike out-of-range positional selectors, which are silently
ignored). -/
theorem c10_unknown_key_error (r : VerticalityNTupletTheoryResult)
    (c : String) (p : Nat) (nl : Option (List Int))
    (h3 : r.vsnt.nTupletNum = 3)
    (hp : r.vsnt.tnlsDict.lookup p = none) :
    r.color c (some p) nl = .error "KeyError" := by
  simp [VerticalityNTupletTheoryResult.color, h3, hp]

/-- C10, witness at the sample group with the absent part key 7. -/
theorem c10_unknown_key_error_witness :
    sampleGroup3.color "blue" (some 7) none = .error "KeyError" :=
  c10_unknown_key_error sampleGroup3 "blue" 7 none rfl rfl

/-- Coloring the same note twice with the same color equals coloring it
once. -/
theorem setColor_setColor (n : MNote) (c : String) :
    (n.setColor c).setColor c = n.setColor c := rfl

/-- A part lookup-and-color at a valid part index succeeds and recolors
exactly that position. -/
theorem setColorFromPart_ok (c : String) :
    ∀ (notes : List MNote) (p : Nat), p < notes.length →
      ∃ notes2 : List MNote,
        Verticality.setColorFromPart ⟨notes⟩ p c = .ok ⟨notes2⟩ ∧
        notes2.length = notes.length ∧
        ∀ i : Nat, notes2.get? i = (notes.get? i).map
          (fun n => if i = p then n.setColor c else n) := by
  intro notes
  induction notes with
  | nil => intro p hp; simp at hp
  | cons hd tl ih =>
      intro p hp
      cases p with
      | zero =>
          refine ⟨hd.setColor c :: tl, rfl, by simp, ?_⟩
          intro i
          cases i with
          | zero => simp
          | succ j => cases h : tl.get? j <;> simp [h]
      | succ q =>
          have hq : q < tl.length := by simpa using hp
          obtain ⟨notes2, heq, hlen, hpt⟩ := ih q hq
          refine ⟨hd :: notes2, ?_, by simp [hlen], ?_⟩
          · simp [Verticality.setColorFromPart, heq, Except.map]
          · intro i
            cases i with
            | zero => simp
            | succ j =>
                simp only [List.get?_cons_succ, hpt j]
                cases h : tl.get? j <;> simp [h, Nat.succ_inj]

/-- A part lookup at an out-of-range part index fails. -/
theorem setColorFromPart_err (c : String) :
    ∀ (notes : List MNote) (p : Nat), notes.length ≤ p →
      Verticality.setColorFromPart ⟨notes⟩ p c
        = .error "noteFromPart: part not found" := by
  intro notes
  induction notes with
  | nil => intro p _; cases p <;> rfl
  | cons hd tl ih =>
      intro p hp
      cases p with
      | zero => simp at hp
      | succ q =>
          have hq : tl.length ≤ q := by simpa using hp
          simp [Verticality.setColorFromPart, ih q hq, Except.map]

/-- Folding the per-part coloring step over a list of valid part indices
colors exactly the listed positions (already-processed positions are
tracked by `done`; recoloring an already-colored note is idempotent). -/
theorem foldColor_ok (c : String) (orig : List MNote) :
    ∀ (l done : List Nat), (∀ p ∈ l, p < orig.length) →
    ∀ cur : List MNote,
      cur.length = orig.length →
      (∀ i : Nat, cur.get? i = (orig.get? i).map
        (fun n => if i ∈ done then n.setColor c else n)) →
      ∃ res : List MNote,
        l.foldlM (fun (vs : Verticality) p => vs.setColorFromPart p c) ⟨cur⟩
          = .ok ⟨res⟩ ∧
        res.length = orig.length ∧
        ∀ i : Nat, res.get? i = (orig.get? i).map
          (fun n => if i ∈ done ∨ i ∈ l then n.setColor c else n) := by
  intro l
  induction l with
  | nil =>
      intro done _ cur hlen hpt
      refine ⟨cur, rfl, hlen, ?_⟩
      intro i
      rw [hpt i]
      cases h : orig.get? i <;> simp
  | cons p l ih =>
      intro done hvalid cur hlen hpt
      have hp : p < cur.length := by
        rw [hlen]; exact hvalid p (List.mem_cons_self p l)
      obtain ⟨cur2, heq2, hlen2, hpt2⟩ := setColorFromPart_ok c cur p hp
      have hcur2 : ∀ i : Nat, cur2.get? i = (orig.get? i).map
          (fun n => if i ∈ p :: done then n.setColor c else n) := by
        intro i
        rw [hpt2 i, hpt i]
        cases h : orig.get? i with
        | none => rfl
        | some n =>
            by_cases h1 : i = p
            · subst h1
              by_cases h2 : i ∈ done <;>
                simp [h2, List.mem_cons, setColor_setColor]
            · by_cases h2 : i ∈ done <;> simp [h1, h2, List.mem_cons]
      obtain ⟨res, heq3, hlen3, hpt3⟩ :=
        ih (p :: done) (fun q hq => hvalid q (List.mem_cons_of_mem p hq))
          cur2 (hlen2.trans hlen) hcur2
      refine ⟨res, ?_, hlen3, ?_⟩
      · rw [List.foldlM_cons, heq2]
        exact heq3
      · intro i
        rw [hpt3 i]
        cases h : orig.get? i with
        | none => rfl
        | some n =>
            by_cases h1 : i = p <;> by_cases h2 : i ∈ done <;>
              by_cases h3 : i ∈ l <;> simp [h1, h2, h3, List.mem_cons]

/-- Folding the per-part coloring step over a list containing an
out-of-range part index fails with the propagated lookup error. -/
theorem foldColor_err (c : String) :
    ∀ (l : List Nat) (cur : List MNote), (∃ p ∈ l, cur.length ≤ p) →
      ∃ e : String,
        l.foldlM (fun (vs : Verticality) p => vs.setColorFromPart p c) ⟨cur⟩
          = .error e := by
  intro l
  induction l with
  | nil =>
      intro cur h
      obtain ⟨p, hp, -⟩ := h
      simp at hp
  | cons p l ih =>
      intro cur h
      by_cases hp : p < cur.length
      · obtain ⟨cur2, heq2, hlen2, -⟩ := setColorFromPart_ok c cur p hp
        obtain ⟨q, hq, hqlen⟩ := h
        rcases List.mem_cons.mp hq with hq | hq
        · subst hq; omega
        · obtain ⟨e, he⟩ := ih cur2 ⟨q, hq, hlen2 ▸ hqlen⟩
          exact ⟨e, by rw [List.foldlM_cons, heq2]; exact he⟩
      · refine ⟨"noteFromPart: part not found", ?_⟩
        rw [List.foldlM_cons, setColorFromPart_err c cur p (by omega)]
        rfl

/-- C8 counterexample: `color("red", partSelection=[])` with an EMPTY
selection list falls through Python's truthiness test (`if partList:`)
into the color-everything branch: on the sample column both notes turn
red, although no part is listed — contradicting the claim that a given
selection list colors exactly the listed parts. -/
theorem c8_counterexample :
    sampleVertRes.color "red" (some []) =
      .ok { sampleVertRes with
        vs := ⟨[sampleNoteA.setColor "red", sampleNoteB.setColor "red"]⟩ } ∧
    ¬ (0 ∈ ([] : List Nat)) ∧ (sampleNoteA.setColor "red").color = "red" :=
  ⟨rfl, by decide, rfl⟩

/-- C8 amended: `color(colorName, partSelection)` with a NONEMPTY
selection list colors exactly the notes of the listed parts when every
listed part index is in range, fails with the propagated lookup error
when some listed index is out of range, and with `partSelection`
omitted colors every note of the column; an EMPTY selection list is
treated like an omitted one (Python truthiness), coloring every note
rather than none. -/
theorem c8_amended (r : VerticalityTheoryResult) (c : String) (l : List Nat)
    (hl : l ≠ []) :
    ((∀ p ∈ l, p < r.vs.noteList.length) →
      ∃ notes2 : List MNote,
        r.color c (some l) = .ok { r with vs := ⟨notes2⟩ } ∧
        notes2.length = r.vs.noteList.length ∧
        ∀ i : Nat, notes2.get? i = (r.vs.noteList.get? i).map
          (fun n => if i ∈ l then n.setColor c else n)) ∧
    ((∃ p ∈ l, r.vs.noteList.length ≤ p) →
      ∃ e : String, r.color c (some l) = .error e) ∧
    r.color c none =
      .ok { r with vs := ⟨r.vs.noteList.map (fun n => n.setColor c)⟩ } ∧
    r.color c (some []) = r.color c none := by
  have htruthy : partListTruthy (some l) = true := by
    cases l with
    | nil => exact absurd rfl hl
    | cons p l => rfl
  refine ⟨?_, ?_, rfl, rfl⟩
  · intro hvalid
    obtain ⟨res, heq, hlen, hpt⟩ :=
      foldColor_ok c r.vs.noteList l [] hvalid r.vs.noteList rfl
        (fun i => by cases h : r.vs.noteList.get? i <;> simp)
    refine ⟨res, ?_, hlen, ?_⟩
    · unfold VerticalityTheoryResult.color
      rw [htruthy]
      simp only [if_true, Option.getD_some]
      rw [heq]
      rfl
    · intro i
      rw [hpt i]
      cases h : r.vs.noteList.get? i <;> simp
  · intro hbad
    obtain ⟨e, he⟩ := foldColor_err c l r.vs.noteList hbad
    refine ⟨e, ?_⟩
    unfold VerticalityTheoryResult.color
    rw [htruthy]
    simp only [if_true, Option.getD_some]
    rw [he]
    rfl

/-- C8 amended, witness: on the sample two-note column,
`color("red", [1])` colors exactly the part-1 note. -/
theorem c8_amended_witness :
    sampleVertRes.color "red" (some [1]) =
      .ok { sampleVertRes with
        vs := ⟨[sampleNoteA, sampleNoteB.setColor "red"]⟩ } := by
  obtain ⟨h1, -, -, -⟩ := c8_amended sampleVertRes "red" [1] (by decide)
  obtain ⟨notes2, heq, hlen, hpt⟩ := h1 (by decide)
  have hn : notes2 = [sampleNoteA, sampleNoteB.setColor "red"] := by
    apply List.ext
    intro n
    rw [hpt n]
    cases n with
    | zero => rfl
    | succ m =>
        cases m with
        | zero => rfl
        | succ q => rfl
  rw [heq, hn]

end TheoryResultSpec
